import Mathlib

/-!
# WatchDir: decoding of directory-change notifications

A shallow embedding of `WatchDir.cpp`.  The notification buffer filled by
`ReadDirectoryChangesW` is a byte list of length `bytes_read`; every memory
access of the decode pass is an index-based read that fails (`none`) when it
leaves the buffer, and is recorded in an access log.  `std::string` values are
byte lists, `std::cout` and `std::cerr` are lists of written lines (one entry
per output statement, the final line feed of `std::endl` included).
-/

namespace WatchDir

/-- Contents of a `std::string` or of raw memory: a list of bytes. -/
abbrev Bytes := List Nat

/-- The bytes of an ASCII string literal of the source. -/
def lit (s : String) : Bytes := s.toList.map Char.toNat

/-- One memory access of the decode pass: `len` bytes starting at byte `off` of the buffer. -/
structure Access where
  off : Nat
  len : Nat
deriving DecidableEq

/-- Value of `FILE_ACTION_ADDED` in the Windows SDK (`winnt.h`). -/
def FILE_ACTION_ADDED : Nat := 1
/-- Value of `FILE_ACTION_REMOVED` in the Windows SDK (`winnt.h`). -/
def FILE_ACTION_REMOVED : Nat := 2
/-- Value of `FILE_ACTION_MODIFIED` in the Windows SDK (`winnt.h`). -/
def FILE_ACTION_MODIFIED : Nat := 3
/-- Value of `FILE_ACTION_RENAMED_OLD_NAME` in the Windows SDK (`winnt.h`). -/
def FILE_ACTION_RENAMED_OLD_NAME : Nat := 4
/-- Value of `FILE_ACTION_RENAMED_NEW_NAME` in the Windows SDK (`winnt.h`). -/
def FILE_ACTION_RENAMED_NEW_NAME : Nat := 5

/-- Byte offset of `NextEntryOffset` in `FILE_NOTIFY_INFORMATION` (first `DWORD`). -/
def OFF_NextEntryOffset : Nat := 0
/-- Byte offset of `Action` in `FILE_NOTIFY_INFORMATION` (second `DWORD`). -/
def OFF_Action : Nat := 4
/-- Byte offset of `FileNameLength` in `FILE_NOTIFY_INFORMATION` (third `DWORD`). -/
def OFF_FileNameLength : Nat := 8
/-- Byte offset of `FileName` in `FILE_NOTIFY_INFORMATION` (the `WCHAR` array after the header). -/
def OFF_FileName : Nat := 12

/-- Little-endian value of a 4-byte `DWORD`. -/
def dwordOf : Bytes → Nat
  | [b0, b1, b2, b3] =>
    b0 % 256 + 256 * (b1 % 256) + 65536 * (b2 % 256) + 16777216 * (b3 % 256)
  | _ => 0

/-- Bounds-checked read of `len` bytes at `off`: `none` when the range leaves the buffer. -/
def readBytes (buf : Bytes) (off len : Nat) : Option Bytes :=
  if off + len ≤ buf.length then some ((buf.drop off).take len) else none

/-- The 16-bit code units of a little-endian `wchar_t` array (a trailing odd byte is dropped). -/
def wcharsOf : Bytes → List Nat
  | lo :: hi :: rest => (lo % 256 + 256 * (hi % 256)) :: wcharsOf rest
  | _ => []

/-- UTF-8 bytes that `std::codecvt_utf8<wchar_t>` writes for one 16-bit code unit. -/
def utf8OfWchar (c : Nat) : Bytes :=
  if c < 128 then [c]
  else if c < 2048 then [192 + c / 64, 128 + c % 64]
  else [224 + c / 4096, 128 + (c / 64) % 64, 128 + c % 64]

/-- The function `wchar_string(s, bytes)` applied to the `2 * (bytes / 2)` bytes it reads:
`std::wstring(s, bytes / 2)` converted to UTF-8. -/
def wchar_string (raw : Bytes) : Bytes :=
  (wcharsOf raw).flatMap utf8OfWchar

/-- Local variables of `Watcher::notify_changes` together with the two output
streams and the log of buffer accesses. -/
structure Machine where
  /-- the pointer `notify_info`, as a byte offset into the buffer -/
  notify_info : Nat
  keep_moving : Bool
  filename : Bytes
  renamed_other_name : Bytes
  /-- lines written to `std::cout` -/
  out : List Bytes
  /-- lines written to `std::cerr` -/
  err : List Bytes
  /-- buffer accesses so far, oldest first -/
  reads : List Access
  /-- number of completed executions of the `do`-`while` body -/
  iterations : Nat
deriving DecidableEq

/-- Logged, bounds-checked read of `len` bytes at `off`. -/
def load (buf : Bytes) (m : Machine) (off len : Nat) : Option (Bytes × Machine) :=
  match readBytes buf off len with
  | some bs => some (bs, { m with reads := m.reads ++ [⟨off, len⟩] })
  | none => none

/-- Logged, bounds-checked read of the `DWORD` at `off`. -/
def loadDWORD (buf : Bytes) (m : Machine) (off : Nat) : Option (Nat × Machine) :=
  match load buf m off 4 with
  | some (bs, m1) => some (dwordOf bs, m1)
  | none => none

/-- Logged read of a record's name: `FileNameLength`, then the `FileNameLength / 2`
wide characters of `FileName`, converted by `wchar_string`. -/
def loadName (buf : Bytes) (m : Machine) (rec : Nat) : Option (Bytes × Machine) :=
  match loadDWORD buf m (rec + OFF_FileNameLength) with
  | none => none
  | some (len, m1) =>
    match load buf m1 (rec + OFF_FileName) (2 * (len / 2)) with
    | none => none
    | some (raw, m2) => some (wchar_string raw, m2)

/-- The `switch (notify_info->Action)` statement of the loop body. -/
def switchAction (ctime : Bytes) (buf : Bytes) (m : Machine) : Option Machine :=
  match loadDWORD buf m (m.notify_info + OFF_Action) with
  | none => none
  | some (action, m1) =>
    if action = FILE_ACTION_ADDED then
      some { m1 with out := m1.out ++
        [ctime ++ lit "        Added           " ++ [34] ++ m1.filename ++ [34] ++ [10]] }
    else if action = FILE_ACTION_REMOVED then
      some { m1 with out := m1.out ++
        [ctime ++ lit "        Removed         " ++ [34] ++ m1.filename ++ [34] ++ [10]] }
    else if action = FILE_ACTION_MODIFIED then
      some { m1 with out := m1.out ++
        [ctime ++ lit "        Modified        " ++ [34] ++ m1.filename ++ [34] ++ [10]] }
    else if action = FILE_ACTION_RENAMED_NEW_NAME then
      some { m1 with renamed_other_name := m1.filename }
    else if action = FILE_ACTION_RENAMED_OLD_NAME then
      match loadDWORD buf m1 (m1.notify_info + OFF_NextEntryOffset) with
      | none => none
      | some (next, m2) =>
        if next ≠ 0 then
          match loadDWORD buf m2 (m2.notify_info + OFF_NextEntryOffset) with
          | none => none
          | some (next1, m2a) =>
            let new_notify_info := m2a.notify_info + next1
            match loadName buf m2a new_notify_info with
            | none => none
            | some (other, m3) =>
              some { m3 with
                renamed_other_name := other
                out := m3.out ++
                  [ctime ++ lit "        Renamed         " ++ [34] ++ m3.filename ++ [34]
                    ++ lit " -> " ++ [34] ++ other ++ [34] ++ [10]]
                notify_info := new_notify_info }
        else
          some { m2 with err := m2.err ++
            [lit "Detected rename action for new file: " ++ [34] ++ m2.filename ++ [34]
              ++ lit "but no subsequent modification event was found" ++ [10]] }
    else some m1

/-- One execution of the `do`-`while` body: the switch, the advance of
`notify_info` by its `NextEntryOffset`, and the test of the `NextEntryOffset`
of the record now pointed to. -/
def loopBody (ctime : Bytes) (buf : Bytes) (m : Machine) : Option Machine :=
  match switchAction ctime buf m with
  | none => none
  | some m1 =>
    match loadDWORD buf m1 (m1.notify_info + OFF_NextEntryOffset) with
    | none => none
    | some (next, m2) =>
      let m3 := { m2 with notify_info := m2.notify_info + next }
      match loadDWORD buf m3 (m3.notify_info + OFF_NextEntryOffset) with
      | none => none
      | some (next2, m4) =>
        let m5 := if next2 = 0 then { m4 with keep_moving := false } else m4
        some { m5 with iterations := m5.iterations + 1 }

/-- The loop `do body while (keep_moving)`; `none` when the fuel runs out or an
access leaves the buffer. -/
def doWhile (ctime : Bytes) (buf : Bytes) : Nat → Machine → Option Machine
  | 0, _ => none
  | fuel + 1, m =>
    match loopBody ctime buf m with
    | none => none
    | some m1 => if m1.keep_moving then doWhile ctime buf fuel m1 else some m1

/-- What one call of `ReadDirectoryChangesW` delivers: `success data` is
`result == TRUE` with `bytes_read = data.length` and `data` at the start of the
buffer; `failure code` is `result == FALSE` with `GetLastError() = code`. -/
inductive ReadOutcome where
  | success (data : Bytes)
  | failure (code : Nat)
deriving DecidableEq

/-- Observable result of one call of `Watcher::notify_changes`. -/
structure Outcome where
  /-- the returned `bool` -/
  ret : Bool
  out : List Bytes
  err : List Bytes
  reads : List Access
  /-- final value of `notify_info` (byte offset) -/
  cursor : Nat
  iterations : Nat
deriving DecidableEq

/-- The function `Watcher::notify_changes`, after the call of `ReadDirectoryChangesW` delivered `rd`;
`ctimeRaw` is the string returned by `std::ctime`. -/
def notify_changes (ctimeRaw : Bytes) (rd : ReadOutcome) : Option Outcome :=
  match rd with
  | .failure _ => some ⟨false, [], [], [], 0, 0⟩
  | .success buf =>
    if buf.length > 0 then
      let m0 : Machine := ⟨0, false, [], [], [], [], [], 0⟩
      match loadName buf m0 m0.notify_info with
      | none => none
      | some (filename, m1) =>
        let m2 := { m1 with filename := filename }
        let ctime := ctimeRaw.filter (fun c => c ≠ 10)
        match doWhile ctime buf (buf.length + 1) m2 with
        | none => none
        | some m3 => some ⟨true, m3.out, m3.err, m3.reads, m3.notify_info, m3.iterations⟩
    else some ⟨false, [], [], [], 0, 0⟩

/-- The `NextEntryOffset` field of the record at `off` (0 when it lies outside the buffer). -/
def nextEntryOffset (buf : Bytes) (off : Nat) : Nat :=
  dwordOf ((buf.drop (off + OFF_NextEntryOffset)).take 4)

/-- The `Action` field of the record at `off` (0 when it lies outside the buffer). -/
def actionAt (buf : Bytes) (off : Nat) : Nat :=
  dwordOf ((buf.drop (off + OFF_Action)).take 4)

/-- The `FileNameLength` field of the record at `off` (0 when it lies outside the buffer). -/
def fileNameLength (buf : Bytes) (off : Nat) : Nat :=
  dwordOf ((buf.drop (off + OFF_FileNameLength)).take 4)

/-- The decoded file name of the record at `off`. -/
def nameAt (buf : Bytes) (off : Nat) : Bytes :=
  wchar_string ((buf.drop (off + OFF_FileName)).take (2 * (fileNameLength buf off / 2)))

/-- The record at `off` lies inside the buffer: its 12-byte header and the
`FileNameLength` bytes of its name. -/
def recordInside (buf : Bytes) (off : Nat) : Bool :=
  decide (off + OFF_FileName + fileNameLength buf off ≤ buf.length)

/-- The chain of records starting at `off` is well formed: every record lies
inside the buffer and every non-zero `NextEntryOffset` leads to another such
record.  The offsets grow strictly, so `buf.length + 1` steps of fuel are enough. -/
def wellFormedFrom (buf : Bytes) : Nat → Nat → Bool
  | 0, _ => false
  | fuel + 1, off =>
    recordInside buf off &&
      (nextEntryOffset buf off == 0 ||
        wellFormedFrom buf fuel (off + nextEntryOffset buf off))

/-- A well-formed batch: a chain of records starting at offset 0. -/
def wellFormed (buf : Bytes) : Bool :=
  wellFormedFrom buf (buf.length + 1) 0

/-- Little-endian bytes of a `DWORD`. -/
def dwordBytes (n : Nat) : Bytes :=
  [n % 256, n / 256 % 256, n / 65536 % 256, n / 16777216 % 256]

/-- Little-endian bytes of an ASCII name as a `wchar_t` array. -/
def wideBytes (s : String) : Bytes :=
  s.toList.flatMap (fun c => [c.toNat % 256, c.toNat / 256 % 256])

/-- Size of a record with a name of `n` bytes, rounded up to the `DWORD` alignment
that `ReadDirectoryChangesW` keeps between records. -/
def recordSize (n : Nat) : Nat := (OFF_FileName + n + 3) / 4 * 4

/-- Bytes of one `FILE_NOTIFY_INFORMATION` record; the last record of a chain has
`NextEntryOffset = 0` and no padding, every other one points right behind its padding. -/
def mkRecord (last : Bool) (action : Nat) (name : String) : Bytes :=
  let nm := wideBytes name
  if last then dwordBytes 0 ++ dwordBytes action ++ dwordBytes nm.length ++ nm
  else
    dwordBytes (recordSize nm.length) ++ dwordBytes action ++ dwordBytes nm.length ++ nm
      ++ List.replicate (recordSize nm.length - (OFF_FileName + nm.length)) 0

/-- Bytes of a batch: the records of the list chained in order. -/
def mkBatch : List (Nat × String) → Bytes
  | [] => []
  | [(a, n)] => mkRecord true a n
  | (a, n) :: rest => mkRecord false a n ++ mkBatch rest

/-- The event line of a single-name event, as the spec lays it out. -/
def eventLine (stamp label name : Bytes) : Bytes :=
  stamp ++ List.replicate 8 32 ++ (label ++ List.replicate (16 - label.length) 32)
    ++ [34] ++ name ++ [34] ++ [10]

/-- The event line of a rename event, as the spec lays it out. -/
def renamedLine (stamp old new : Bytes) : Bytes :=
  stamp ++ List.replicate 8 32 ++ (lit "Renamed" ++ List.replicate 9 32)
    ++ [34] ++ old ++ [34] ++ lit " -> " ++ [34] ++ new ++ [34] ++ [10]

/-- The diagnostic written when a rename has no following record. -/
def orphanLine (old : Bytes) : Bytes :=
  lit "Detected rename action for new file: " ++ [34] ++ old ++ [34]
    ++ lit "but no subsequent modification event was found" ++ [10]

/-- Lines written to `std::cout` for a first record that is not a rename-old record:
one event line for Added, Removed and Modified, nothing for any other action. -/
def simpleOut (stamp : Bytes) (action : Nat) (name : Bytes) : List Bytes :=
  if action = FILE_ACTION_ADDED then [eventLine stamp (lit "Added") name]
  else if action = FILE_ACTION_REMOVED then [eventLine stamp (lit "Removed") name]
  else if action = FILE_ACTION_MODIFIED then [eventLine stamp (lit "Modified") name]
  else []

/-- The two accesses that read the name of the record at `rec`. -/
def nameReads (buf : Bytes) (rec : Nat) : List Access :=
  [⟨rec + 8, 4⟩, ⟨rec + 12, 2 * (fileNameLength buf rec / 2)⟩]

/-- State of the watch thread at the end of `Watcher::watcher_proc`. -/
structure Watcher where
  is_running : Bool
  LastErrCode : Nat
  out : List Bytes
  err : List Bytes
  /-- number of calls of `ReadDirectoryChangesW` made -/
  readsDone : Nat
  /-- read results of the script that were never asked for -/
  unread : List ReadOutcome
deriving DecidableEq

/-- The thread's last-error value after a call of `ReadDirectoryChangesW`:
a failing call sets it, a successful one leaves it as it was. -/
def lastErrorAfter (lastError : Nat) : ReadOutcome → Nat
  | .failure code => code
  | .success _ => lastError

/-- The loop `while (notify_changes(self));` against a scripted change source:
`clock k` is the `std::ctime` string at read number `k`.  An exhausted script
is a read that never returns (`none`). -/
def whileNotify (clock : Nat → Bytes) : List ReadOutcome → Watcher → Nat → Option (Watcher × Nat)
  | [], _, _ => none
  | rd :: rest, w, lastError =>
    match notify_changes (clock w.readsDone) rd with
    | none => none
    | some o =>
      let w1 := { w with out := w.out ++ o.out, err := w.err ++ o.err,
                         readsDone := w.readsDone + 1, unread := rest }
      if o.ret then whileNotify clock rest w1 (lastErrorAfter lastError rd)
      else some (w1, lastErrorAfter lastError rd)

/-- The function `Watcher::watcher_proc`: sets `is_running`, runs the loop, then stores
`GetLastError()` in `LastErrCode`.  `lastError` is the thread's last-error value
after the opening `CreateFile`. -/
def watcher_proc (clock : Nat → Bytes) (script : List ReadOutcome) (lastError : Nat) :
    Option Watcher :=
  let self : Watcher := ⟨true, 0, [], [], 0, script⟩
  match whileNotify clock script self lastError with
  | none => none
  | some (w, e) => some { w with LastErrCode := e }

/-- The constructor `Watcher::Watcher`: throws `WatcherException` when `CreateFile` returns
`INVALID_HANDLE_VALUE` (`opened = false`). -/
def Watcher.new (opened : Bool) : Except Bytes Unit :=
  if opened then .ok () else .error (lit "Failed to open directory handle!")

/-- Observable result of `main`. -/
structure MainResult where
  exit : Int
  out : List Bytes
  err : List Bytes
  threadStarted : Bool
deriving DecidableEq

/-- The function `main`: `opened` tells whether the constructor's `CreateFile` on `argv[1]`
succeeds; the watch thread runs `watcher_proc` and is joined. -/
def main (argc : Int) (opened : Bool) (clock : Nat → Bytes) (script : List ReadOutcome)
    (lastError : Nat) : Option MainResult :=
  if argc < 2 then
    some ⟨1, [],
      [lit "Too few arguments. Exiting." ++ [10],
       lit "Watches directory for file changes. This does not include changes to the directory itself!" ++ [10],
       lit "" ++ [10],
       lit "WatchDir [drive:][path]" ++ [10]], false⟩
  else
    match Watcher.new opened with
    | .error e => some ⟨1, [], [lit "Error: " ++ e ++ [10]], false⟩
    | .ok () =>
      match watcher_proc clock script lastError with
      | none => none
      | some w =>
        some ⟨0, w.out ++ [lit "Watcher stopped with error code: "
                ++ lit (Nat.repr w.LastErrCode) ++ [10]], w.err, true⟩

/-- Offsets of the records of the chain starting at `off`, in chain order. -/
def chain (buf : Bytes) : Nat → Nat → List Nat
  | 0, _ => []
  | fuel + 1, off =>
    off :: (if nextEntryOffset buf off = 0 then []
            else chain buf fuel (off + nextEntryOffset buf off))

/-- Offsets of the records of a batch. -/
def records (buf : Bytes) : List Nat := chain buf (buf.length + 1) 0

/-- The access lies inside the record at `rec` (header and name bytes). -/
def Access.within (buf : Bytes) (a : Access) (rec : Nat) : Prop :=
  rec ≤ a.off ∧ a.off + a.len ≤ rec + OFF_FileName + fileNameLength buf rec

/-- Lines that the calls of `notify_changes` on the reads of `script` write to
`std::cout`, the first read being read number `k`. -/
def linesOf (clock : Nat → Bytes) : Nat → List ReadOutcome → List Bytes
  | _, [] => []
  | k, rd :: rest =>
    (match notify_changes (clock k) rd with
      | some o => o.out
      | none => []) ++ linesOf clock (k + 1) rest

/-- Lines that the calls of `notify_changes` on the reads of `script` write to
`std::cerr`, the first read being read number `k`. -/
def errLinesOf (clock : Nat → Bytes) : Nat → List ReadOutcome → List Bytes
  | _, [] => []
  | k, rd :: rest =>
    (match notify_changes (clock k) rd with
      | some o => o.err
      | none => []) ++ errLinesOf clock (k + 1) rest

/-- The status line that `main` prints after the watch thread has stopped. -/
def statusLine (code : Nat) : Bytes :=
  lit "Watcher stopped with error code: " ++ lit (Nat.repr code) ++ [10]

/-! ## Buffer accesses -/


theorem load_eq_ite (buf : Bytes) (m : Machine) (off len : Nat) :
    load buf m off len
      = if off + len ≤ buf.length then
          some ((buf.drop off).take len, { m with reads := m.reads ++ [⟨off, len⟩] })
        else none := by
  unfold load readBytes
  split_ifs <;> rfl

theorem loadDWORD_eq_ite (buf : Bytes) (m : Machine) (off : Nat) :
    loadDWORD buf m off
      = if off + 4 ≤ buf.length then
          some (dwordOf ((buf.drop off).take 4), { m with reads := m.reads ++ [⟨off, 4⟩] })
        else none := by
  unfold loadDWORD
  rw [load_eq_ite]
  split_ifs <;> rfl

theorem loadName_eq_ite (buf : Bytes) (m : Machine) (rec : Nat) :
    loadName buf m rec
      = if rec + 12 + 2 * (fileNameLength buf rec / 2) ≤ buf.length then
          some (nameAt buf rec, { m with reads := m.reads ++
            [⟨rec + 8, 4⟩, ⟨rec + 12, 2 * (fileNameLength buf rec / 2)⟩] })
        else none := by
  unfold loadName
  simp only [OFF_FileNameLength, OFF_FileName, loadDWORD_eq_ite, load_eq_ite]
  by_cases h : rec + 12 + 2 * (fileNameLength buf rec / 2) ≤ buf.length
  · have h4 : rec + 8 + 4 ≤ buf.length := by omega
    have h' : rec + 12 + 2 * (dwordOf ((buf.drop (rec + 8)).take 4) / 2) ≤ buf.length := by
      simpa [fileNameLength, OFF_FileNameLength] using h
    simp [h, h4, h', nameAt, fileNameLength, OFF_FileNameLength, OFF_FileName]
  · have h' : ¬ rec + 12 + 2 * (dwordOf ((buf.drop (rec + 8)).take 4) / 2) ≤ buf.length := by
      simpa [fileNameLength, OFF_FileNameLength] using h
    by_cases h4 : rec + 8 + 4 ≤ buf.length
    · simp only [h, h4, if_true, if_false, if_neg h']
    · simp only [h, h4, if_false]

theorem added_layout (c n : Bytes) :
    c ++ lit "        Added           " ++ [34] ++ n ++ [34] ++ [10]
      = eventLine c (lit "Added") n := by
  simp [eventLine, lit]

theorem removed_layout (c n : Bytes) :
    c ++ lit "        Removed         " ++ [34] ++ n ++ [34] ++ [10]
      = eventLine c (lit "Removed") n := by
  simp [eventLine, lit]

theorem modified_layout (c n : Bytes) :
    c ++ lit "        Modified        " ++ [34] ++ n ++ [34] ++ [10]
      = eventLine c (lit "Modified") n := by
  simp [eventLine, lit]

theorem renamed_layout (c o n : Bytes) :
    c ++ lit "        Renamed         " ++ [34] ++ o ++ [34] ++ lit " -> " ++ [34] ++ n ++ [34]
        ++ [10]
      = renamedLine c o n := by
  simp [renamedLine, lit]

theorem switchAction_eq (c buf : Bytes) (m : Machine) :
    switchAction c buf m
      = if m.notify_info + 4 + 4 ≤ buf.length then
          if actionAt buf m.notify_info = FILE_ACTION_RENAMED_OLD_NAME then
            if nextEntryOffset buf m.notify_info = 0 then
              some { m with
                err := m.err ++ [orphanLine m.filename]
                reads := m.reads ++ [⟨m.notify_info + 4, 4⟩, ⟨m.notify_info, 4⟩] }
            else if m.notify_info + nextEntryOffset buf m.notify_info + 12
                + 2 * (fileNameLength buf (m.notify_info + nextEntryOffset buf m.notify_info) / 2)
                  ≤ buf.length then
              some { m with
                renamed_other_name := nameAt buf (m.notify_info + nextEntryOffset buf m.notify_info)
                out := m.out ++ [renamedLine c m.filename
                  (nameAt buf (m.notify_info + nextEntryOffset buf m.notify_info))]
                notify_info := m.notify_info + nextEntryOffset buf m.notify_info
                reads := m.reads ++ [⟨m.notify_info + 4, 4⟩, ⟨m.notify_info, 4⟩, ⟨m.notify_info, 4⟩]
                  ++ nameReads buf (m.notify_info + nextEntryOffset buf m.notify_info) }
            else none
          else
            some { m with
              renamed_other_name :=
                if actionAt buf m.notify_info = FILE_ACTION_RENAMED_NEW_NAME then m.filename
                else m.renamed_other_name
              out := m.out ++ simpleOut c (actionAt buf m.notify_info) m.filename
              reads := m.reads ++ [⟨m.notify_info + 4, 4⟩] }
        else none := by
  unfold switchAction
  simp only [OFF_Action, OFF_NextEntryOffset, loadDWORD_eq_ite, loadName_eq_ite, Nat.add_zero]
  by_cases h : m.notify_info + 4 + 4 ≤ buf.length
  · have h0 : m.notify_info + 4 ≤ buf.length := by omega
    simp only [h, h0, if_true, added_layout, removed_layout, modified_layout, renamed_layout]
    have ha : dwordOf ((buf.drop (m.notify_info + 4)).take 4) = actionAt buf m.notify_info := by
      simp [actionAt, OFF_Action]
    have hn : dwordOf ((buf.drop m.notify_info).take 4) = nextEntryOffset buf m.notify_info := by
      simp [nextEntryOffset, OFF_NextEntryOffset]
    rw [ha, hn]
    by_cases a1 : actionAt buf m.notify_info = FILE_ACTION_ADDED
    · simp [a1, simpleOut, FILE_ACTION_ADDED, FILE_ACTION_RENAMED_OLD_NAME,
        FILE_ACTION_RENAMED_NEW_NAME]
    by_cases a2 : actionAt buf m.notify_info = FILE_ACTION_REMOVED
    · simp [a2, simpleOut, FILE_ACTION_ADDED, FILE_ACTION_REMOVED, FILE_ACTION_RENAMED_OLD_NAME,
        FILE_ACTION_RENAMED_NEW_NAME]
    by_cases a3 : actionAt buf m.notify_info = FILE_ACTION_MODIFIED
    · simp [a3, simpleOut, FILE_ACTION_ADDED, FILE_ACTION_REMOVED, FILE_ACTION_MODIFIED,
        FILE_ACTION_RENAMED_OLD_NAME, FILE_ACTION_RENAMED_NEW_NAME]
    by_cases a5 : actionAt buf m.notify_info = FILE_ACTION_RENAMED_NEW_NAME
    · simp [a5, simpleOut, FILE_ACTION_ADDED, FILE_ACTION_REMOVED, FILE_ACTION_MODIFIED,
        FILE_ACTION_RENAMED_OLD_NAME, FILE_ACTION_RENAMED_NEW_NAME]
    by_cases a4 : actionAt buf m.notify_info = FILE_ACTION_RENAMED_OLD_NAME
    · simp only [a4, a1, a2, a3, a5, if_true, if_false]
      by_cases hz : nextEntryOffset buf m.notify_info = 0
      · simp [hz, orphanLine, FILE_ACTION_ADDED, FILE_ACTION_REMOVED, FILE_ACTION_MODIFIED,
          FILE_ACTION_RENAMED_OLD_NAME, FILE_ACTION_RENAMED_NEW_NAME]
      · by_cases hb : m.notify_info + nextEntryOffset buf m.notify_info + 12
            + 2 * (fileNameLength buf (m.notify_info + nextEntryOffset buf m.notify_info) / 2)
              ≤ buf.length
        · simp [hz, hb, nameReads, FILE_ACTION_ADDED, FILE_ACTION_REMOVED, FILE_ACTION_MODIFIED,
            FILE_ACTION_RENAMED_OLD_NAME, FILE_ACTION_RENAMED_NEW_NAME]
        · simp [hz, hb, FILE_ACTION_ADDED, FILE_ACTION_REMOVED, FILE_ACTION_MODIFIED,
            FILE_ACTION_RENAMED_OLD_NAME, FILE_ACTION_RENAMED_NEW_NAME]
    · simp [a1, a2, a3, a4, a5, simpleOut]
  · have h' : ¬ m.notify_info + 4 + 4 ≤ buf.length := h
    simp only [h, if_false]

theorem switchAction_keep (c buf : Bytes) (m m1 : Machine)
    (h : switchAction c buf m = some m1) :
    m1.keep_moving = m.keep_moving ∧ m1.iterations = m.iterations := by
  rw [switchAction_eq] at h
  split_ifs at h <;> simp at h <;> subst h <;> simp

theorem loopBody_eq (c buf : Bytes) (m : Machine) :
    loopBody c buf m
      = match switchAction c buf m with
        | none => none
        | some m1 =>
          if m1.notify_info + nextEntryOffset buf m1.notify_info + 4 ≤ buf.length
              ∧ m1.notify_info + 4 ≤ buf.length then
            some { m1 with
              notify_info := m1.notify_info + nextEntryOffset buf m1.notify_info
              keep_moving :=
                if nextEntryOffset buf (m1.notify_info + nextEntryOffset buf m1.notify_info) = 0
                then false else m1.keep_moving
              reads := m1.reads ++ [⟨m1.notify_info, 4⟩,
                ⟨m1.notify_info + nextEntryOffset buf m1.notify_info, 4⟩]
              iterations := m1.iterations + 1 }
          else none := by
  have hn : ∀ k, dwordOf ((buf.drop k).take 4) = nextEntryOffset buf k := by
    intro k
    simp [nextEntryOffset, OFF_NextEntryOffset]
  unfold loopBody
  cases hs : switchAction c buf m with
  | none => rfl
  | some m1 =>
    simp only [OFF_NextEntryOffset, Nat.add_zero, loadDWORD_eq_ite, hn]
    by_cases h1 : m1.notify_info + 4 ≤ buf.length
    · by_cases h2 : m1.notify_info + nextEntryOffset buf m1.notify_info + 4 ≤ buf.length
      · simp only [h1, h2, if_true, and_self]
        split_ifs <;> simp
      · simp [h1, h2]
    · simp [h1]

theorem loopBody_keep (c buf : Bytes) (m m1 : Machine) (hk : m.keep_moving = false)
    (h : loopBody c buf m = some m1) :
    m1.keep_moving = false ∧ m1.iterations = m.iterations + 1 := by
  rw [loopBody_eq] at h
  cases hs : switchAction c buf m with
  | none => simp [hs] at h
  | some m2 =>
    obtain ⟨hk2, hi2⟩ := switchAction_keep c buf m m2 hs
    simp only [hs] at h
    split_ifs at h <;> simp at h <;> subst h <;> simp [hk2, hk, hi2]

theorem doWhile_once (c buf : Bytes) (fuel : Nat) (m : Machine) (hk : m.keep_moving = false) :
    doWhile c buf (fuel + 1) m = loopBody c buf m := by
  unfold doWhile
  cases h : loopBody c buf m with
  | none => rfl
  | some m1 =>
    have := (loopBody_keep c buf m m1 hk h).1
    simp [this]

theorem notify_changes_success_eq (c buf : Bytes) :
    notify_changes c (.success buf)
      = if buf.length = 0 then some ⟨false, [], [], [], 0, 0⟩
        else if 12 + 2 * (fileNameLength buf 0 / 2) ≤ buf.length then
          if actionAt buf 0 = FILE_ACTION_RENAMED_OLD_NAME then
            if nextEntryOffset buf 0 = 0 then
              some ⟨true, [], [orphanLine (nameAt buf 0)],
                nameReads buf 0 ++ [⟨4, 4⟩, ⟨0, 4⟩, ⟨0, 4⟩, ⟨0, 4⟩], 0, 1⟩
            else if nextEntryOffset buf 0 + 12
                  + 2 * (fileNameLength buf (nextEntryOffset buf 0) / 2) ≤ buf.length
                ∧ nextEntryOffset buf 0 + nextEntryOffset buf (nextEntryOffset buf 0) + 4
                  ≤ buf.length then
              some ⟨true,
                [renamedLine (c.filter (fun x => x ≠ 10)) (nameAt buf 0)
                  (nameAt buf (nextEntryOffset buf 0))], [],
                nameReads buf 0 ++ [⟨4, 4⟩, ⟨0, 4⟩, ⟨0, 4⟩] ++ nameReads buf (nextEntryOffset buf 0)
                  ++ [⟨nextEntryOffset buf 0, 4⟩,
                      ⟨nextEntryOffset buf 0 + nextEntryOffset buf (nextEntryOffset buf 0), 4⟩],
                nextEntryOffset buf 0 + nextEntryOffset buf (nextEntryOffset buf 0), 1⟩
            else none
          else if nextEntryOffset buf 0 + 4 ≤ buf.length then
            some ⟨true, simpleOut (c.filter (fun x => x ≠ 10)) (actionAt buf 0) (nameAt buf 0), [],
              nameReads buf 0 ++ [⟨4, 4⟩, ⟨0, 4⟩, ⟨nextEntryOffset buf 0, 4⟩],
              nextEntryOffset buf 0, 1⟩
          else none
        else none := by
  unfold notify_changes
  by_cases hlen : buf.length = 0
  · simp [hlen]
  have hpos : buf.length > 0 := Nat.pos_of_ne_zero hlen
  simp only [hlen, hpos, if_true, if_false, loadName_eq_ite, Nat.zero_add]
  by_cases hA : 12 + 2 * (fileNameLength buf 0 / 2) ≤ buf.length
  · have h8 : 0 + 4 + 4 ≤ buf.length := by omega
    have h4 : 0 + 4 ≤ buf.length := by omega
    simp only [hA, if_true]
    rw [doWhile_once _ _ _ _ rfl, loopBody_eq, switchAction_eq]
    simp only [h8, if_true, Nat.zero_add]
    by_cases ha : actionAt buf 0 = FILE_ACTION_RENAMED_OLD_NAME
    · simp only [ha, if_true]
      by_cases hz : nextEntryOffset buf 0 = 0
      · simp [hz, h4, nameReads]
      · simp only [hz, if_false, Nat.zero_add]
        by_cases hB : nextEntryOffset buf 0 + 12
            + 2 * (fileNameLength buf (nextEntryOffset buf 0) / 2) ≤ buf.length
        · have hB4 : nextEntryOffset buf 0 + 4 ≤ buf.length := by omega
          by_cases hC : nextEntryOffset buf 0 + nextEntryOffset buf (nextEntryOffset buf 0) + 4
              ≤ buf.length
          · simp [hB, hB4, hC, nameReads]
          · simp [hB, hC]
        · simp [hB]
    · simp only [ha, if_false]
      by_cases hD : nextEntryOffset buf 0 + 4 ≤ buf.length
      · simp [hD, h4, nameReads]
      · simp [hD]
  · simp [hA]



/-! ## Well-formed batches -/

theorem wellFormedFrom_step (buf : Bytes) (fuel off : Nat)
    (h : wellFormedFrom buf (fuel + 1) off = true) :
    off + 12 + fileNameLength buf off ≤ buf.length ∧
      (nextEntryOffset buf off ≠ 0 →
        wellFormedFrom buf fuel (off + nextEntryOffset buf off) = true) := by
  unfold wellFormedFrom at h
  simp only [recordInside, OFF_FileName, Bool.and_eq_true, Bool.or_eq_true, decide_eq_true_eq,
    beq_iff_eq] at h
  refine ⟨h.1, fun hne => ?_⟩
  rcases h.2 with h0 | h1
  · exact absurd h0 hne
  · exact h1

theorem wellFormed_bounds (buf : Bytes) (h : wellFormed buf = true) :
    12 + fileNameLength buf 0 ≤ buf.length ∧
      (nextEntryOffset buf 0 ≠ 0 →
        nextEntryOffset buf 0 + 12 + fileNameLength buf (nextEntryOffset buf 0) ≤ buf.length ∧
        (nextEntryOffset buf (nextEntryOffset buf 0) ≠ 0 →
          nextEntryOffset buf 0 + nextEntryOffset buf (nextEntryOffset buf 0) + 12
            + fileNameLength buf (nextEntryOffset buf 0 + nextEntryOffset buf (nextEntryOffset buf 0))
              ≤ buf.length)) := by
  unfold wellFormed at h
  obtain ⟨h0, hnext⟩ := wellFormedFrom_step buf buf.length 0 h
  have h0' : 12 + fileNameLength buf 0 ≤ buf.length := by omega
  refine ⟨h0', fun hn0 => ?_⟩
  have h1 := hnext hn0
  rw [Nat.zero_add] at h1
  obtain ⟨k, hk⟩ : ∃ k, buf.length = k + 2 := ⟨buf.length - 2, by omega⟩
  rw [hk] at h1
  obtain ⟨h1a, h1next⟩ := wellFormedFrom_step buf (k + 1) _ h1
  refine ⟨by omega, fun hn1 => ?_⟩
  have h2 := h1next hn1
  obtain ⟨h2a, _⟩ := wellFormedFrom_step buf k _ h2
  omega

theorem records_first (buf : Bytes) : 0 ∈ records buf := by
  simp [records, chain]

theorem records_second (buf : Bytes) (hlen : 1 ≤ buf.length) (h : nextEntryOffset buf 0 ≠ 0) :
    nextEntryOffset buf 0 ∈ records buf := by
  obtain ⟨k, hk⟩ : ∃ k, buf.length = k + 1 := ⟨buf.length - 1, by omega⟩
  simp [records, chain, hk, h]

theorem records_third (buf : Bytes) (hlen : 2 ≤ buf.length) (h : nextEntryOffset buf 0 ≠ 0)
    (h1 : nextEntryOffset buf (nextEntryOffset buf 0) ≠ 0) :
    nextEntryOffset buf 0 + nextEntryOffset buf (nextEntryOffset buf 0) ∈ records buf := by
  obtain ⟨k, hk⟩ : ∃ k, buf.length = k + 2 := ⟨buf.length - 2, by omega⟩
  simp [records, chain, hk, h, h1]

/-- Under well-formedness, the decode pass of a non-rename first record returns. -/
theorem notify_changes_simple (c buf : Bytes) (hwf : wellFormed buf = true)
    (ha : actionAt buf 0 ≠ FILE_ACTION_RENAMED_OLD_NAME) :
    notify_changes c (.success buf)
      = some ⟨true, simpleOut (c.filter (fun x => x ≠ 10)) (actionAt buf 0) (nameAt buf 0), [],
          nameReads buf 0 ++ [⟨4, 4⟩, ⟨0, 4⟩, ⟨nextEntryOffset buf 0, 4⟩],
          nextEntryOffset buf 0, 1⟩ := by
  obtain ⟨h0, h1⟩ := wellFormed_bounds buf hwf
  have hlen : buf.length ≠ 0 := by omega
  have hA : 12 + 2 * (fileNameLength buf 0 / 2) ≤ buf.length := by omega
  have hD : nextEntryOffset buf 0 + 4 ≤ buf.length := by
    by_cases hz : nextEntryOffset buf 0 = 0
    · omega
    · have := (h1 hz).1
      omega
  rw [notify_changes_success_eq]
  simp only [hlen, hA, ha, hD, if_true, if_false]

/-- Under well-formedness, the decode pass of a lone rename-old record returns. -/
theorem notify_changes_orphan (c buf : Bytes) (hwf : wellFormed buf = true)
    (ha : actionAt buf 0 = FILE_ACTION_RENAMED_OLD_NAME) (hz : nextEntryOffset buf 0 = 0) :
    notify_changes c (.success buf)
      = some ⟨true, [], [orphanLine (nameAt buf 0)],
          nameReads buf 0 ++ [⟨4, 4⟩, ⟨0, 4⟩, ⟨0, 4⟩, ⟨0, 4⟩], 0, 1⟩ := by
  obtain ⟨h0, _⟩ := wellFormed_bounds buf hwf
  have hlen : buf.length ≠ 0 := by omega
  have hA : 12 + 2 * (fileNameLength buf 0 / 2) ≤ buf.length := by omega
  rw [notify_changes_success_eq]
  simp only [hlen, hA, ha, hz, if_true, if_false]

/-- Under well-formedness, the decode pass of a rename-old record with a successor returns. -/
theorem notify_changes_paired (c buf : Bytes) (hwf : wellFormed buf = true)
    (ha : actionAt buf 0 = FILE_ACTION_RENAMED_OLD_NAME) (hz : nextEntryOffset buf 0 ≠ 0) :
    notify_changes c (.success buf)
      = some ⟨true,
          [renamedLine (c.filter (fun x => x ≠ 10)) (nameAt buf 0)
            (nameAt buf (nextEntryOffset buf 0))], [],
          nameReads buf 0 ++ [⟨4, 4⟩, ⟨0, 4⟩, ⟨0, 4⟩] ++ nameReads buf (nextEntryOffset buf 0)
            ++ [⟨nextEntryOffset buf 0, 4⟩,
                ⟨nextEntryOffset buf 0 + nextEntryOffset buf (nextEntryOffset buf 0), 4⟩],
          nextEntryOffset buf 0 + nextEntryOffset buf (nextEntryOffset buf 0), 1⟩ := by
  obtain ⟨h0, h1⟩ := wellFormed_bounds buf hwf
  obtain ⟨h1a, h2⟩ := h1 hz
  have hlen : buf.length ≠ 0 := by omega
  have hA : 12 + 2 * (fileNameLength buf 0 / 2) ≤ buf.length := by omega
  have hB : nextEntryOffset buf 0 + 12
      + 2 * (fileNameLength buf (nextEntryOffset buf 0) / 2) ≤ buf.length := by omega
  have hC : nextEntryOffset buf 0 + nextEntryOffset buf (nextEntryOffset buf 0) + 4
      ≤ buf.length := by
    by_cases hz1 : nextEntryOffset buf (nextEntryOffset buf 0) = 0
    · omega
    · have := h2 hz1
      omega
  rw [notify_changes_success_eq]
  simp only [hlen, hA, ha, hz, hB, hC, if_true, if_false, and_self]

/-- A well-formed batch is never empty and the decode pass on it returns `true`. -/
theorem notify_changes_wellFormed (c buf : Bytes) (hwf : wellFormed buf = true) :
    ∃ o, notify_changes c (.success buf) = some o ∧ o.ret = true ∧ o.iterations = 1 := by
  by_cases ha : actionAt buf 0 = FILE_ACTION_RENAMED_OLD_NAME
  · by_cases hz : nextEntryOffset buf 0 = 0
    · exact ⟨_, notify_changes_orphan c buf hwf ha hz, rfl, rfl⟩
    · exact ⟨_, notify_changes_paired c buf hwf ha hz, rfl, rfl⟩
  · exact ⟨_, notify_changes_simple c buf hwf ha, rfl, rfl⟩



/-! ## Claims about the decode pass -/

/-- C8: on a well-formed batch the decode pass of `Watcher::notify_changes` returns, and
every access it made lies inside the buffer, more precisely inside one record of the
chain; the final cursor is a record of the chain.  When the first record is a rename-old
record with `NextEntryOffset = 0`, every access lies inside that record, the two reads of
`NextEntryOffset` after the switch are at offset 0 and the cursor stays at 0. -/
theorem decode_reads_inside_buffer (c buf : Bytes) (hwf : wellFormed buf = true) :
    ∃ o, notify_changes c (.success buf) = some o ∧
      (∀ a ∈ o.reads, a.off + a.len ≤ buf.length) ∧
      (∀ a ∈ o.reads, ∃ rec ∈ records buf, a.within buf rec) ∧
      o.cursor ∈ records buf ∧
      (actionAt buf 0 = FILE_ACTION_RENAMED_OLD_NAME → nextEntryOffset buf 0 = 0 →
        o.cursor = 0 ∧
        o.reads = nameReads buf 0 ++ [⟨4, 4⟩, ⟨0, 4⟩, ⟨0, 4⟩, ⟨0, 4⟩] ∧
        ∀ a ∈ o.reads, a.within buf 0) := by
  obtain ⟨h0, h1⟩ := wellFormed_bounds buf hwf
  have hr0 := records_first buf
  by_cases ha : actionAt buf 0 = FILE_ACTION_RENAMED_OLD_NAME
  · by_cases hz : nextEntryOffset buf 0 = 0
    · refine ⟨_, notify_changes_orphan c buf hwf ha hz, ?_, ?_, hr0, fun _ _ => ⟨rfl, rfl, ?_⟩⟩
      · intro a hmem
        simp only [nameReads, List.mem_append, List.mem_cons, List.mem_singleton,
          List.not_mem_nil, or_false] at hmem
        rcases hmem with (rfl | rfl) | rfl | rfl | rfl | rfl <;> simp only [] <;> omega
      · intro a hmem
        refine ⟨0, hr0, ?_⟩
        simp only [nameReads, List.mem_append, List.mem_cons, List.mem_singleton,
          List.not_mem_nil, or_false] at hmem
        rcases hmem with (rfl | rfl) | rfl | rfl | rfl | rfl <;>
          simp only [Access.within, OFF_FileName] <;> omega
      · intro a hmem
        simp only [nameReads, List.mem_append, List.mem_cons, List.mem_singleton,
          List.not_mem_nil, or_false] at hmem
        rcases hmem with (rfl | rfl) | rfl | rfl | rfl | rfl <;>
          simp only [Access.within, OFF_FileName] <;> omega
    · obtain ⟨h1a, h2⟩ := h1 hz
      have hr1 := records_second buf (by omega) hz
      refine ⟨_, notify_changes_paired c buf hwf ha hz, ?_, ?_, ?_, fun _ h => absurd h hz⟩
      · intro a hmem
        simp only [nameReads, List.mem_append, List.mem_cons, List.mem_singleton,
          List.not_mem_nil, or_false] at hmem
        by_cases hz1 : nextEntryOffset buf (nextEntryOffset buf 0) = 0
        · rcases hmem with (((rfl | rfl) | rfl | rfl | rfl) | rfl | rfl) | rfl | rfl <;>
            simp only [] <;> omega
        · have := h2 hz1
          rcases hmem with (((rfl | rfl) | rfl | rfl | rfl) | rfl | rfl) | rfl | rfl <;>
            simp only [] <;> omega
      · intro a hmem
        simp only [nameReads, List.mem_append, List.mem_cons, List.mem_singleton,
          List.not_mem_nil, or_false] at hmem
        rcases hmem with (((rfl | rfl) | rfl | rfl | rfl) | rfl | rfl) | rfl | rfl
        · exact ⟨0, hr0, by simp only [Access.within, OFF_FileName]; omega⟩
        · exact ⟨0, hr0, by simp only [Access.within, OFF_FileName]; omega⟩
        · exact ⟨0, hr0, by simp only [Access.within, OFF_FileName]; omega⟩
        · exact ⟨0, hr0, by simp only [Access.within, OFF_FileName]; omega⟩
        · exact ⟨0, hr0, by simp only [Access.within, OFF_FileName]; omega⟩
        · exact ⟨_, hr1, by simp only [Access.within, OFF_FileName]; omega⟩
        · exact ⟨_, hr1, by simp only [Access.within, OFF_FileName]; omega⟩
        · exact ⟨_, hr1, by simp only [Access.within, OFF_FileName]; omega⟩
        · by_cases hz1 : nextEntryOffset buf (nextEntryOffset buf 0) = 0
          · exact ⟨_, hr1, by simp only [Access.within, OFF_FileName]; omega⟩
          · exact ⟨_, records_third buf (by omega) hz hz1,
              by simp only [Access.within, OFF_FileName]; omega⟩
      · by_cases hz1 : nextEntryOffset buf (nextEntryOffset buf 0) = 0
        · simpa [hz1] using hr1
        · exact records_third buf (by omega) hz hz1
  · have hc : nextEntryOffset buf 0 ∈ records buf := by
      by_cases hz : nextEntryOffset buf 0 = 0
      · rw [hz]; exact hr0
      · exact records_second buf (by omega) hz
    refine ⟨_, notify_changes_simple c buf hwf ha, ?_, ?_, hc, fun h => absurd h ha⟩
    · intro a hmem
      simp only [nameReads, List.mem_append, List.mem_cons, List.mem_singleton,
        List.not_mem_nil, or_false] at hmem
      by_cases hz : nextEntryOffset buf 0 = 0
      · rcases hmem with (rfl | rfl) | rfl | rfl | rfl <;> simp only [] <;> omega
      · have := (h1 hz).1
        rcases hmem with (rfl | rfl) | rfl | rfl | rfl <;> simp only [] <;> omega
    · intro a hmem
      simp only [nameReads, List.mem_append, List.mem_cons, List.mem_singleton,
        List.not_mem_nil, or_false] at hmem
      rcases hmem with (rfl | rfl) | rfl | rfl | rfl
      · exact ⟨0, hr0, by simp only [Access.within, OFF_FileName]; omega⟩
      · exact ⟨0, hr0, by simp only [Access.within, OFF_FileName]; omega⟩
      · exact ⟨0, hr0, by simp only [Access.within, OFF_FileName]; omega⟩
      · exact ⟨0, hr0, by simp only [Access.within, OFF_FileName]; omega⟩
      · exact ⟨_, hc, by simp only [Access.within, OFF_FileName]; omega⟩



theorem notify_changes_lines (c buf : Bytes) (o : Outcome)
    (h : notify_changes c (.success buf) = some o) (hne : buf.length ≠ 0) :
    o.ret = true ∧ o.iterations = 1 ∧
      o.out = (if actionAt buf 0 = FILE_ACTION_RENAMED_OLD_NAME then
                (if nextEntryOffset buf 0 = 0 then []
                 else [renamedLine (c.filter (fun x => x ≠ 10)) (nameAt buf 0)
                        (nameAt buf (nextEntryOffset buf 0))])
               else simpleOut (c.filter (fun x => x ≠ 10)) (actionAt buf 0) (nameAt buf 0)) ∧
      o.err = (if actionAt buf 0 = FILE_ACTION_RENAMED_OLD_NAME then
                (if nextEntryOffset buf 0 = 0 then [orphanLine (nameAt buf 0)] else [])
               else []) := by
  rw [notify_changes_success_eq] at h
  simp only [hne, if_false] at h
  split_ifs at h <;> simp only [Option.some.injEq, reduceCtorEq] at h <;> subst h <;> simp [*]

theorem count_lf_eventLine (stamp label name : Bytes) (hs : 10 ∉ stamp) (hl : 10 ∉ label)
    (hn : 10 ∉ name) : (eventLine stamp label name).count 10 = 1 := by
  simp [eventLine, List.count_append, List.count_eq_zero_of_not_mem hs,
    List.count_eq_zero_of_not_mem hl, List.count_eq_zero_of_not_mem hn, List.count_replicate]

theorem count_lf_renamedLine (stamp old new : Bytes) (hs : 10 ∉ stamp) (ho : 10 ∉ old)
    (hn : 10 ∉ new) : (renamedLine stamp old new).count 10 = 1 := by
  simp [renamedLine, lit, List.count_append, List.count_eq_zero_of_not_mem hs,
    List.count_eq_zero_of_not_mem ho, List.count_eq_zero_of_not_mem hn, List.count_replicate]

theorem eventLine_last (stamp label name : Bytes) :
    (eventLine stamp label name).getLast? = some 10 := by
  unfold eventLine
  exact List.getLast?_concat _

theorem renamedLine_last (stamp old new : Bytes) :
    (renamedLine stamp old new).getLast? = some 10 := by
  unfold renamedLine
  exact List.getLast?_concat _

theorem stamp_no_lf (c : Bytes) : 10 ∉ c.filter (fun x => x ≠ 10) := by
  simp [List.mem_filter]

/-- C9: the body of the `do`-`while` loop runs exactly once on every non-empty batch, so
one call of `Watcher::notify_changes` writes at most one line in total, and two batches
that agree on the first record's action and name, and (for a rename-old first record) on
whether `NextEntryOffset` is zero and on the name of the record it leads to, produce the
same output; a well-formed batch is always decoded. -/
theorem single_pass_at_most_one_line (c buf : Bytes) :
    (∀ o, notify_changes c (.success buf) = some o → buf ≠ [] →
      o.iterations = 1 ∧ o.out.length + o.err.length ≤ 1 ∧
      ∀ buf2 o2, notify_changes c (.success buf2) = some o2 → buf2 ≠ [] →
        actionAt buf2 0 = actionAt buf 0 → nameAt buf2 0 = nameAt buf 0 →
        (actionAt buf 0 = FILE_ACTION_RENAMED_OLD_NAME →
          (nextEntryOffset buf2 0 = 0 ↔ nextEntryOffset buf 0 = 0) ∧
          (nextEntryOffset buf 0 ≠ 0 →
            nameAt buf2 (nextEntryOffset buf2 0) = nameAt buf (nextEntryOffset buf 0))) →
        o2.out = o.out ∧ o2.err = o.err) ∧
    (wellFormed buf = true →
      ∃ o, notify_changes c (.success buf) = some o ∧ o.ret = true ∧ o.iterations = 1) := by
  refine ⟨fun o h hne => ?_, fun hwf => notify_changes_wellFormed c buf hwf⟩
  have hlen : buf.length ≠ 0 := by simpa using hne
  obtain ⟨_, hit, hout, herr⟩ := notify_changes_lines c buf o h hlen
  refine ⟨hit, ?_, ?_⟩
  · rw [hout, herr]
    unfold simpleOut
    split_ifs <;> simp
  · intro buf2 o2 h2 hne2 hact hname hren
    have hlen2 : buf2.length ≠ 0 := by simpa using hne2
    obtain ⟨_, _, hout2, herr2⟩ := notify_changes_lines c buf2 o2 h2 hlen2
    rw [hout, herr, hout2, herr2, hact, hname]
    by_cases ha : actionAt buf 0 = FILE_ACTION_RENAMED_OLD_NAME
    · obtain ⟨hiff, hnm⟩ := hren ha
      by_cases hz : nextEntryOffset buf 0 = 0
      · simp [ha, hz, hiff.mpr hz]
      · have hz2 : nextEntryOffset buf2 0 ≠ 0 := fun h0 => hz (hiff.mp h0)
        simp [ha, hz, hz2, hnm hz]
    · simp [ha]

/-- C10: when the first record is a rename-old record with a non-zero `NextEntryOffset`,
`Watcher::notify_changes` writes exactly one line, the rename line made of the first
record's name and the name of the record the offset leads to, and no diagnostic; the
action of that following record is never looked at. -/
theorem rename_pairing_ignores_next_action (c buf : Bytes) (hwf : wellFormed buf = true)
    (ha : actionAt buf 0 = FILE_ACTION_RENAMED_OLD_NAME) (hz : nextEntryOffset buf 0 ≠ 0) :
    ∃ o, notify_changes c (.success buf) = some o ∧
      o.out = [renamedLine (c.filter (fun x => x ≠ 10)) (nameAt buf 0)
                (nameAt buf (nextEntryOffset buf 0))] ∧
      o.err = [] :=
  ⟨_, notify_changes_paired c buf hwf ha hz, rfl, rfl⟩

/-- C7 (amended): every line that `Watcher::notify_changes` writes to `std::cout` is the
time stamp without line feeds, 8 spaces, the label padded to 16 characters, the quoted
name, for a rename the 4 characters of the arrow and the quoted new name, and one final
line feed; the line holds no other line feed when the decoded names hold none. -/
theorem event_line_layout (c buf : Bytes) (o : Outcome)
    (h : notify_changes c (.success buf) = some o) :
    ∀ line ∈ o.out,
      10 ∉ c.filter (fun x => x ≠ 10) ∧ line.getLast? = some 10 ∧
      ((∃ label ∈ [lit "Added", lit "Removed", lit "Modified"],
          line = eventLine (c.filter (fun x => x ≠ 10)) label (nameAt buf 0) ∧
          (10 ∉ nameAt buf 0 → line.count 10 = 1)) ∨
       (line = renamedLine (c.filter (fun x => x ≠ 10)) (nameAt buf 0)
            (nameAt buf (nextEntryOffset buf 0)) ∧
          (10 ∉ nameAt buf 0 → 10 ∉ nameAt buf (nextEntryOffset buf 0) →
            line.count 10 = 1))) := by
  intro line hmem
  by_cases hlen : buf.length = 0
  · rw [notify_changes_success_eq] at h
    simp only [hlen, if_true, Option.some.injEq] at h
    subst h
    simp at hmem
  obtain ⟨_, _, hout, _⟩ := notify_changes_lines c buf o h hlen
  rw [hout] at hmem
  refine ⟨stamp_no_lf c, ?_⟩
  have hA : 10 ∉ lit "Added" := by decide
  have hR : 10 ∉ lit "Removed" := by decide
  have hM : 10 ∉ lit "Modified" := by decide
  unfold simpleOut at hmem
  split_ifs at hmem <;> simp only [List.mem_singleton, List.not_mem_nil] at hmem
  · subst hmem
    exact ⟨renamedLine_last _ _ _, Or.inr ⟨rfl, fun ho hn =>
      count_lf_renamedLine _ _ _ (stamp_no_lf c) ho hn⟩⟩
  · subst hmem
    exact ⟨eventLine_last _ _ _, Or.inl ⟨_, by simp, rfl, fun hn =>
      count_lf_eventLine _ _ _ (stamp_no_lf c) hA hn⟩⟩
  · subst hmem
    exact ⟨eventLine_last _ _ _, Or.inl ⟨_, by simp, rfl, fun hn =>
      count_lf_eventLine _ _ _ (stamp_no_lf c) hR hn⟩⟩
  · subst hmem
    exact ⟨eventLine_last _ _ _, Or.inl ⟨_, by simp, rfl, fun hn =>
      count_lf_eventLine _ _ _ (stamp_no_lf c) hM hn⟩⟩



/-! ## The watch loop and `main` -/

theorem notify_changes_failure (c : Bytes) (code : Nat) :
    notify_changes c (.failure code) = some ⟨false, [], [], [], 0, 0⟩ := rfl

theorem notify_changes_zero_bytes (c : Bytes) :
    notify_changes c (.success []) = some ⟨false, [], [], [], 0, 0⟩ := rfl

theorem whileNotify_stops (clock : Nat → Bytes) (rd : ReadOutcome) (rest : List ReadOutcome)
    (hterm : ∀ k, notify_changes (clock k) rd = some ⟨false, [], [], [], 0, 0⟩) :
    ∀ (pre : List ReadOutcome) (w : Watcher) (e : Nat),
      (∀ p ∈ pre, ∃ data, p = .success data ∧ wellFormed data = true) →
      whileNotify clock (pre ++ rd :: rest) w e
        = some ({ w with
                  out := w.out ++ linesOf clock w.readsDone pre
                  err := w.err ++ errLinesOf clock w.readsDone pre
                  readsDone := w.readsDone + pre.length + 1
                  unread := rest }, lastErrorAfter e rd) := by
  intro pre
  induction pre with
  | nil =>
    intro w e _
    simp [whileNotify, hterm, linesOf, errLinesOf]
  | cons p pre ih =>
    intro w e hpre
    obtain ⟨data, rfl, hwf⟩ := hpre p (List.mem_cons_self _ _)
    obtain ⟨o, ho, hret, _⟩ := notify_changes_wellFormed (clock w.readsDone) data hwf
    have hpre2 : ∀ q ∈ pre, ∃ data, q = .success data ∧ wellFormed data = true :=
      fun q hq => hpre q (List.mem_cons_of_mem _ hq)
    simp only [List.cons_append, whileNotify, ho, hret, if_true, List.append_eq]
    rw [ih _ _ hpre2]
    simp [linesOf, errLinesOf, ho, lastErrorAfter, Nat.add_assoc, Nat.add_comm 1]

theorem watcher_proc_stops (clock : Nat → Bytes) (pre : List ReadOutcome) (rd : ReadOutcome)
    (rest : List ReadOutcome) (e : Nat)
    (hterm : ∀ k, notify_changes (clock k) rd = some ⟨false, [], [], [], 0, 0⟩)
    (hpre : ∀ p ∈ pre, ∃ data, p = .success data ∧ wellFormed data = true) :
    watcher_proc clock (pre ++ rd :: rest) e
      = some ⟨true, lastErrorAfter e rd, linesOf clock 0 pre, errLinesOf clock 0 pre,
          pre.length + 1, rest⟩ := by
  unfold watcher_proc
  simp only [whileNotify_stops clock rd rest hterm pre _ e hpre]
  simp

/-- C5: when the reads before the first failing one all deliver well-formed batches, and
that read fails with code `c`, `Watcher::watcher_proc` decodes every earlier batch in
order, makes no further read, and leaves `LastErrCode = c`; `main`, started with a
directory that opens, then prints the status line with `c` after the event lines and
returns 0. -/
theorem watcher_stops_at_failed_read (clock : Nat → Bytes) (pre rest : List ReadOutcome)
    (c e : Nat) (argc : Int) (hargc : 2 ≤ argc)
    (hpre : ∀ p ∈ pre, ∃ data, p = .success data ∧ wellFormed data = true) :
    (∃ w, watcher_proc clock (pre ++ .failure c :: rest) e = some w ∧
      w.LastErrCode = c ∧ w.readsDone = pre.length + 1 ∧ w.unread = rest ∧
      w.out = linesOf clock 0 pre ∧ w.err = errLinesOf clock 0 pre) ∧
    main argc true clock (pre ++ .failure c :: rest) e
      = some ⟨0, linesOf clock 0 pre ++ [statusLine c], errLinesOf clock 0 pre, true⟩ := by
  have hw := watcher_proc_stops clock pre (.failure c) rest e
    (fun k => notify_changes_failure (clock k) c) hpre
  refine ⟨⟨_, hw, rfl, rfl, rfl, rfl, rfl⟩, ?_⟩
  have hlt : ¬ argc < 2 := by omega
  simp [main, hlt, Watcher.new, hw, statusLine, lastErrorAfter]

/-- C4 (amended): `Watcher::notify_changes` returns `false`, without output, on a failed
read and also on a successful read of zero bytes; it returns `true` on every well-formed
batch, and whenever it returns `true` the read succeeded with at least one byte.  The
loop of `Watcher::watcher_proc` therefore stops at the first read that fails or delivers
zero bytes, and reads nothing after it. -/
theorem notify_changes_true_iff_nonempty_success (c : Bytes) (rd : ReadOutcome) :
    ((rd = .success [] ∨ ∃ code, rd = .failure code) →
      notify_changes c rd = some ⟨false, [], [], [], 0, 0⟩ ∧
      ∀ clock pre rest e,
        (∀ p ∈ pre, ∃ data, p = .success data ∧ wellFormed data = true) →
        ∃ w, watcher_proc clock (pre ++ rd :: rest) e = some w ∧
          w.readsDone = pre.length + 1 ∧ w.unread = rest) ∧
    (∀ data, rd = .success data → wellFormed data = true →
      ∃ o, notify_changes c rd = some o ∧ o.ret = true) ∧
    (∀ o, notify_changes c rd = some o →
      (o.ret = true ↔ ∃ data, rd = .success data ∧ data ≠ [])) := by
  refine ⟨fun hrd => ?_, fun data hd hwf => ?_, fun o ho => ?_⟩
  · have hterm : ∀ c2, notify_changes c2 rd = some ⟨false, [], [], [], 0, 0⟩ := by
      intro c2
      rcases hrd with rfl | ⟨code, rfl⟩
      · exact notify_changes_zero_bytes c2
      · exact notify_changes_failure c2 code
    refine ⟨hterm c, fun clock pre rest e hpre => ?_⟩
    exact ⟨_, watcher_proc_stops clock pre rd rest e (fun k => hterm (clock k)) hpre, rfl, rfl⟩
  · subst hd
    obtain ⟨o, ho, hret, _⟩ := notify_changes_wellFormed c data hwf
    exact ⟨o, ho, hret⟩
  · cases rd with
    | failure code =>
      rw [notify_changes_failure] at ho
      simp only [Option.some.injEq] at ho
      subst ho
      simp
    | success data =>
      by_cases hlen : data.length = 0
      · have hnil : data = [] := List.length_eq_zero.mp hlen
        subst hnil
        rw [notify_changes_zero_bytes] at ho
        simp only [Option.some.injEq] at ho
        subst ho
        simp
      · have hne : data ≠ [] := fun h => hlen (by simp [h])
        obtain ⟨hret, _⟩ := notify_changes_lines c data o ho hlen
        simp [hret, hne]

/-- C6: `main` returns 1, with output on the error stream only and without starting the
watch thread, when `argc < 2` or the directory cannot be opened; otherwise it returns
exactly when the watch thread stops, the thread was started and the status is 0.  So a
returned status is 1 exactly in the two startup failures and 0 in every other case. -/
theorem main_exit_status (argc : Int) (opened : Bool) (clock : Nat → Bytes)
    (script : List ReadOutcome) (e : Nat) :
    ((argc < 2 ∨ opened = false) →
      ∃ r, main argc opened clock script e = some r ∧ r.exit = 1 ∧ r.out = [] ∧
        r.err ≠ [] ∧ r.threadStarted = false) ∧
    (¬ (argc < 2 ∨ opened = false) →
      (∀ w, watcher_proc clock script e = some w →
        ∃ r, main argc opened clock script e = some r ∧ r.exit = 0 ∧
          r.threadStarted = true ∧ r.out = w.out ++ [statusLine w.LastErrCode]) ∧
      (watcher_proc clock script e = none → main argc opened clock script e = none)) ∧
    (∀ r, main argc opened clock script e = some r →
      (r.exit = 1 ↔ (argc < 2 ∨ opened = false)) ∧ (r.exit = 1 ∨ r.exit = 0)) := by
  by_cases hargc : argc < 2
  · have hm : main argc opened clock script e = some ⟨1, [],
        [lit "Too few arguments. Exiting." ++ [10],
         lit "Watches directory for file changes. This does not include changes to the directory itself!" ++ [10],
         lit "" ++ [10],
         lit "WatchDir [drive:][path]" ++ [10]], false⟩ := by
      simp [main, hargc]
    refine ⟨fun _ => ⟨_, hm, rfl, rfl, by simp, rfl⟩, fun h => absurd (Or.inl hargc) h, ?_⟩
    intro r hr
    rw [hm] at hr
    simp only [Option.some.injEq] at hr
    subst hr
    simp [hargc]
  · cases opened with
    | false =>
      have hm : main argc false clock script e
          = some ⟨1, [], [lit "Error: " ++ lit "Failed to open directory handle!" ++ [10]],
              false⟩ := by
        simp [main, hargc, Watcher.new]
      refine ⟨fun _ => ⟨_, hm, rfl, rfl, by simp, rfl⟩, fun h => absurd (Or.inr rfl) h, ?_⟩
      intro r hr
      rw [hm] at hr
      simp only [Option.some.injEq] at hr
      subst hr
      simp
    | true =>
      have hno : ¬ (argc < 2 ∨ true = false) := by simp [hargc]
      refine ⟨fun h => absurd h hno, fun _ => ⟨fun w hw => ?_, fun hw => ?_⟩, ?_⟩
      · exact ⟨⟨0, w.out ++ [statusLine w.LastErrCode], w.err, true⟩,
          by simp [main, hargc, Watcher.new, hw, statusLine], rfl, rfl, rfl⟩
      · simp [main, hargc, Watcher.new, hw]
      · intro r hr
        cases hw : watcher_proc clock script e with
        | none => simp [main, hargc, Watcher.new, hw] at hr
        | some w =>
          simp only [main, hargc, Watcher.new, hw, if_false, if_true, Option.some.injEq] at hr
          subst hr
          simp [hargc]



/-! ## Concrete batches -/

/-- Scenario 1 of the spec: the batch with the single record Added "a.txt". -/
theorem scenario_single_added :
    (notify_changes (lit "Sat Oct 31 07:00:00 2026\n")
        (.success (mkBatch [(FILE_ACTION_ADDED, "a.txt")]))).map (fun o => (o.out, o.err))
      = some ([eventLine (lit "Sat Oct 31 07:00:00 2026") (lit "Added") (lit "a.txt")], []) := by
  decide

/-- Scenario 2 of the spec: a rename pair at the start of the batch gives one rename line. -/
theorem scenario_rename_pair :
    (notify_changes (lit "T\n")
        (.success (mkBatch [(FILE_ACTION_RENAMED_OLD_NAME, "old.txt"),
          (FILE_ACTION_RENAMED_NEW_NAME, "new.txt")]))).map (fun o => (o.out, o.err, o.cursor))
      = some ([renamedLine (lit "T") (lit "old.txt") (lit "new.txt")], [], 28) := by
  decide

/-- Scenario 4 of the spec: a lone rename-old record gives no event and one diagnostic. -/
theorem scenario_orphan_rename :
    (notify_changes (lit "T\n")
        (.success (mkBatch [(FILE_ACTION_RENAMED_OLD_NAME, "z")]))).map (fun o => (o.out, o.err))
      = some ([], [orphanLine (lit "z")]) := by
  decide

/-- C1: on the batch [Modified "x", Removed "y"] (two well-formed chained records)
`Watcher::notify_changes` runs the loop body once and writes the line of the first
record only; no line is written for Removed "y". -/
theorem modified_removed_batch_emits_first_only :
    mkBatch [(FILE_ACTION_MODIFIED, "x"), (FILE_ACTION_REMOVED, "y")]
        = [16, 0, 0, 0, 3, 0, 0, 0, 2, 0, 0, 0, 120, 0, 0, 0,
           0, 0, 0, 0, 2, 0, 0, 0, 2, 0, 0, 0, 121, 0] ∧
      wellFormed (mkBatch [(FILE_ACTION_MODIFIED, "x"), (FILE_ACTION_REMOVED, "y")]) = true ∧
      records (mkBatch [(FILE_ACTION_MODIFIED, "x"), (FILE_ACTION_REMOVED, "y")]) = [0, 16] ∧
      (notify_changes (lit "T\n")
          (.success (mkBatch [(FILE_ACTION_MODIFIED, "x"), (FILE_ACTION_REMOVED, "y")]))).map
          (fun o => (o.out, o.err, o.iterations))
        = some ([eventLine (lit "T") (lit "Modified") (lit "x")], [], 1) := by
  decide

/-- C2: on the batch [Added "a", RenamedOld "old.txt", RenamedNew "new.txt"]
`Watcher::notify_changes` writes the Added line only; the rename pair that follows the
first record produces no rename line. -/
theorem rename_pair_after_first_record_is_lost :
    wellFormed (mkBatch [(FILE_ACTION_ADDED, "a"), (FILE_ACTION_RENAMED_OLD_NAME, "old.txt"),
        (FILE_ACTION_RENAMED_NEW_NAME, "new.txt")]) = true ∧
      records (mkBatch [(FILE_ACTION_ADDED, "a"), (FILE_ACTION_RENAMED_OLD_NAME, "old.txt"),
        (FILE_ACTION_RENAMED_NEW_NAME, "new.txt")]) = [0, 16, 44] ∧
      (notify_changes (lit "T\n")
          (.success (mkBatch [(FILE_ACTION_ADDED, "a"), (FILE_ACTION_RENAMED_OLD_NAME, "old.txt"),
            (FILE_ACTION_RENAMED_NEW_NAME, "new.txt")]))).map
          (fun o => (o.out, o.err, o.iterations))
        = some ([eventLine (lit "T") (lit "Added") (lit "a")], [], 1) := by
  decide

/-- C3: on the batch [Added "a", RenamedOld "z"], whose last record is a rename-old record
with `NextEntryOffset = 0`, `Watcher::notify_changes` writes the Added line and no
diagnostic at all. -/
theorem trailing_orphan_rename_gets_no_diagnostic :
    mkBatch [(FILE_ACTION_ADDED, "a"), (FILE_ACTION_RENAMED_OLD_NAME, "z")]
        = [16, 0, 0, 0, 1, 0, 0, 0, 2, 0, 0, 0, 97, 0, 0, 0,
           0, 0, 0, 0, 4, 0, 0, 0, 2, 0, 0, 0, 122, 0] ∧
      wellFormed (mkBatch [(FILE_ACTION_ADDED, "a"), (FILE_ACTION_RENAMED_OLD_NAME, "z")]) = true ∧
      records (mkBatch [(FILE_ACTION_ADDED, "a"), (FILE_ACTION_RENAMED_OLD_NAME, "z")]) = [0, 16] ∧
      (notify_changes (lit "T\n")
          (.success (mkBatch [(FILE_ACTION_ADDED, "a"), (FILE_ACTION_RENAMED_OLD_NAME, "z")]))).map
          (fun o => (o.out, o.err, o.iterations))
        = some ([eventLine (lit "T") (lit "Added") (lit "a")], [], 1) := by
  decide

/-- C4, as stated, fails: on a successful read of zero bytes `Watcher::notify_changes`
returns `false`, and `Watcher::watcher_proc` stops there, leaving the next read unread. -/
theorem zero_byte_read_stops_the_loop :
    (notify_changes (lit "T\n") (.success [])).map (fun o => o.ret) = some false ∧
      (watcher_proc (fun _ => lit "T\n")
          [.success [], .success (mkBatch [(FILE_ACTION_ADDED, "a.txt")])] 0).map
          (fun w => (w.readsDone, w.unread))
        = some (1, [.success (mkBatch [(FILE_ACTION_ADDED, "a.txt")])]) := by
  decide

/-- C7, as stated, fails: for a record whose name is the single wide character U+000A the
Added line holds two line feeds, one inside the quotes and the final one. -/
theorem event_line_with_line_feed_in_name :
    mkBatch [(FILE_ACTION_ADDED, "\n")] = [0, 0, 0, 0, 1, 0, 0, 0, 2, 0, 0, 0, 10, 0] ∧
      (notify_changes (lit "T\n") (.success [0, 0, 0, 0, 1, 0, 0, 0, 2, 0, 0, 0, 10, 0])).map
          (fun o => (o.out, o.out.map (List.count 10)))
        = some ([[84, 32, 32, 32, 32, 32, 32, 32, 32, 65, 100, 100, 101, 100, 32, 32, 32, 32, 32,
                  32, 32, 32, 32, 32, 32, 34, 10, 34, 10]], [2]) := by
  decide



/-! ## Instances of the general theorems -/

/-- A zero-byte read after one decoded batch: the loop stops at the second read. -/
theorem notify_changes_true_iff_nonempty_success_witness :
    notify_changes (lit "T\n") (.success []) = some ⟨false, [], [], [], 0, 0⟩ ∧
      ∃ w, watcher_proc (fun _ => lit "T\n")
          ([.success (mkBatch [(FILE_ACTION_ADDED, "a.txt")])] ++ .success [] :: [.failure 5]) 0
            = some w ∧
        w.readsDone = [ReadOutcome.success (mkBatch [(FILE_ACTION_ADDED, "a.txt")])].length + 1 ∧
        w.unread = [.failure 5] :=
  ⟨((notify_changes_true_iff_nonempty_success (lit "T\n") (.success [])).1 (Or.inl rfl)).1,
    ((notify_changes_true_iff_nonempty_success (lit "T\n") (.success [])).1 (Or.inl rfl)).2
      (fun _ => lit "T\n") [.success (mkBatch [(FILE_ACTION_ADDED, "a.txt")])] [.failure 5] 0
      (by
        intro p hp
        rw [List.mem_singleton] at hp
        exact ⟨_, hp, by decide⟩)⟩

/-- Scenario 5 of the spec after one decoded batch: the read fails with code 5. -/
theorem watcher_stops_at_failed_read_witness :
    main 2 true (fun _ => lit "T\n")
        ([.success (mkBatch [(FILE_ACTION_ADDED, "a.txt")])] ++ .failure 5 :: []) 0
      = some ⟨0,
          linesOf (fun _ => lit "T\n") 0 [.success (mkBatch [(FILE_ACTION_ADDED, "a.txt")])]
            ++ [statusLine 5],
          errLinesOf (fun _ => lit "T\n") 0 [.success (mkBatch [(FILE_ACTION_ADDED, "a.txt")])],
          true⟩ :=
  (watcher_stops_at_failed_read (fun _ => lit "T\n")
    [.success (mkBatch [(FILE_ACTION_ADDED, "a.txt")])] [] 5 0 2 (by decide)
    (by
      intro p hp
      rw [List.mem_singleton] at hp
      exact ⟨_, hp, by decide⟩)).2

/-- No argument: status 1; a directory that opens and a read that fails: status 0. -/
theorem main_exit_status_witness :
    (∃ r, main 1 true (fun _ => lit "T\n") [] 0 = some r ∧ r.exit = 1 ∧ r.out = [] ∧
        r.err ≠ [] ∧ r.threadStarted = false) ∧
      (∃ r, main 2 false (fun _ => lit "T\n") [] 0 = some r ∧ r.exit = 1 ∧ r.out = [] ∧
        r.err ≠ [] ∧ r.threadStarted = false) ∧
      (∃ r, main 2 true (fun _ => lit "T\n") [.failure 5] 0 = some r ∧ r.exit = 0 ∧
        r.threadStarted = true ∧
        r.out = (⟨true, 5, [], [], 1, []⟩ : Watcher).out
          ++ [statusLine (⟨true, 5, [], [], 1, []⟩ : Watcher).LastErrCode]) :=
  ⟨(main_exit_status 1 true (fun _ => lit "T\n") [] 0).1 (Or.inl (by decide)),
    (main_exit_status 2 false (fun _ => lit "T\n") [] 0).1 (Or.inr rfl),
    ((main_exit_status 2 true (fun _ => lit "T\n") [.failure 5] 0).2.1 (by decide)).1
      ⟨true, 5, [], [], 1, []⟩ (by decide)⟩

/-- The layout of the line written for the batch [Added "a.txt"]. -/
theorem event_line_layout_witness :
    notify_changes (lit "T\n") (.success (mkBatch [(FILE_ACTION_ADDED, "a.txt")]))
        = some ⟨true, [eventLine (lit "T") (lit "Added") (lit "a.txt")], [],
            [⟨8, 4⟩, ⟨12, 10⟩, ⟨4, 4⟩, ⟨0, 4⟩, ⟨0, 4⟩], 0, 1⟩ ∧
      10 ∉ (lit "T\n").filter (fun x => x ≠ 10) ∧
      (eventLine (lit "T") (lit "Added") (lit "a.txt")).getLast? = some 10 ∧
      eventLine (lit "T") (lit "Added") (lit "a.txt")
        = eventLine ((lit "T\n").filter (fun x => x ≠ 10)) (lit "Added")
            (nameAt (mkBatch [(FILE_ACTION_ADDED, "a.txt")]) 0) ∧
      (eventLine (lit "T") (lit "Added") (lit "a.txt")).count 10 = 1 := by
  have h := event_line_layout (lit "T\n") (mkBatch [(FILE_ACTION_ADDED, "a.txt")])
    ⟨true, [eventLine (lit "T") (lit "Added") (lit "a.txt")], [],
      [⟨8, 4⟩, ⟨12, 10⟩, ⟨4, 4⟩, ⟨0, 4⟩, ⟨0, 4⟩], 0, 1⟩ (by decide)
    (eventLine (lit "T") (lit "Added") (lit "a.txt")) (List.mem_singleton_self _)
  obtain ⟨hstamp, hlast, hform⟩ := h
  rcases hform with ⟨_, _, _, hcount⟩ | ⟨heq, _⟩
  · exact ⟨by decide, hstamp, hlast, by decide, hcount (by decide)⟩
  · exact absurd heq (by decide)

/-- Scenario 4 of the spec: every access of the decode pass on [RenamedOld "z"] is inside
the only record. -/
theorem decode_reads_inside_buffer_witness :
    wellFormed (mkBatch [(FILE_ACTION_RENAMED_OLD_NAME, "z")]) = true ∧
      ∃ o, notify_changes (lit "T\n")
          (.success (mkBatch [(FILE_ACTION_RENAMED_OLD_NAME, "z")])) = some o ∧
        (∀ a ∈ o.reads,
          a.off + a.len ≤ (mkBatch [(FILE_ACTION_RENAMED_OLD_NAME, "z")]).length) ∧
        o.cursor = 0 ∧
        o.reads = [⟨8, 4⟩, ⟨12, 2⟩, ⟨4, 4⟩, ⟨0, 4⟩, ⟨0, 4⟩, ⟨0, 4⟩] ∧
        ∀ a ∈ o.reads, a.within (mkBatch [(FILE_ACTION_RENAMED_OLD_NAME, "z")]) 0 := by
  obtain ⟨o, ho, hin, _, _, hlast⟩ :=
    decode_reads_inside_buffer (lit "T\n") (mkBatch [(FILE_ACTION_RENAMED_OLD_NAME, "z")])
      (by decide)
  obtain ⟨hcur, hreads, hwithin⟩ := hlast (by decide) (by decide)
  exact ⟨by decide, o, ho, hin, hcur, hreads.trans (by decide), hwithin⟩

/-- The batches [Modified "x", Removed "y"] and [Modified "x"] produce the same single line. -/
theorem single_pass_at_most_one_line_witness :
    ∃ o o2,
      notify_changes (lit "T\n")
        (.success (mkBatch [(FILE_ACTION_MODIFIED, "x"), (FILE_ACTION_REMOVED, "y")])) = some o ∧
      notify_changes (lit "T\n") (.success (mkBatch [(FILE_ACTION_MODIFIED, "x")])) = some o2 ∧
      o.iterations = 1 ∧ o.out.length + o.err.length ≤ 1 ∧ o2.out = o.out ∧ o2.err = o.err := by
  obtain ⟨o, ho, _⟩ := (single_pass_at_most_one_line (lit "T\n")
    (mkBatch [(FILE_ACTION_MODIFIED, "x"), (FILE_ACTION_REMOVED, "y")])).2 (by decide)
  obtain ⟨o2, ho2, _⟩ := (single_pass_at_most_one_line (lit "T\n")
    (mkBatch [(FILE_ACTION_MODIFIED, "x")])).2 (by decide)
  obtain ⟨hit, hle, hsame⟩ := (single_pass_at_most_one_line (lit "T\n")
    (mkBatch [(FILE_ACTION_MODIFIED, "x"), (FILE_ACTION_REMOVED, "y")])).1 o ho (by decide)
  obtain ⟨hout, herr⟩ := hsame (mkBatch [(FILE_ACTION_MODIFIED, "x")]) o2 ho2 (by decide)
    (by decide) (by decide) (by decide)
  exact ⟨o, o2, ho, ho2, hit, hle, hout, herr⟩

/-- A rename-old record followed by an Added record is reported as a rename. -/
theorem rename_pairing_ignores_next_action_witness :
    actionAt (mkBatch [(FILE_ACTION_RENAMED_OLD_NAME, "o"), (FILE_ACTION_ADDED, "n")]) 16
        = FILE_ACTION_ADDED ∧
      ∃ o, notify_changes (lit "T\n")
          (.success (mkBatch [(FILE_ACTION_RENAMED_OLD_NAME, "o"), (FILE_ACTION_ADDED, "n")]))
            = some o ∧
        o.out = [renamedLine ((lit "T\n").filter (fun x => x ≠ 10))
          (nameAt (mkBatch [(FILE_ACTION_RENAMED_OLD_NAME, "o"), (FILE_ACTION_ADDED, "n")]) 0)
          (nameAt (mkBatch [(FILE_ACTION_RENAMED_OLD_NAME, "o"), (FILE_ACTION_ADDED, "n")])
            (nextEntryOffset
              (mkBatch [(FILE_ACTION_RENAMED_OLD_NAME, "o"), (FILE_ACTION_ADDED, "n")]) 0))] ∧
        o.err = [] :=
  ⟨by decide,
    rename_pairing_ignores_next_action (lit "T\n")
      (mkBatch [(FILE_ACTION_RENAMED_OLD_NAME, "o"), (FILE_ACTION_ADDED, "n")])
      (by decide) (by decide) (by decide)⟩

end WatchDir
